import Mathlib

/-!
Verification of the MCP Wikipedia client (mcp_client.py).

The development shallowly embeds the client's command handlers
(handle_prompt, handle_resource, list_prompts, list_resources), the
LangGraph agent orchestration graph built in create_graph, and the
dispatch performed by the main interactive loop.  Remote MCP calls and
the language model are modelled as oracles supplied as parameters;
a call that raises a Python exception is modelled as `Except.error`.
-/

namespace McpClient

/-! ### Decimal numerals

`handle_resource` builds `resource_map = \x7bstr(i + 1): r.name ...\x7d`,
whose keys are decimal strings.  We need that `Nat.repr` is injective in
order to reason about lookups in that map.  `decimalVal` decodes the
digit characters produced by `Nat.toDigitsCore`.
-/

def decimalStep (a : Nat) (c : Char) : Nat := 10 * a + (c.toNat - 48)

def decimalVal (cs : List Char) : Nat := cs.foldl decimalStep 0

theorem digitChar_toNat (d : Nat) (h : d < 10) : (Nat.digitChar d).toNat = 48 + d := by
  interval_cases d <;> rfl

theorem toDigitsCore_append (b : Nat) :
    ∀ (fuel n : Nat) (ds : List Char),
      Nat.toDigitsCore b fuel n ds = Nat.toDigitsCore b fuel n [] ++ ds := by
  intro fuel
  induction fuel with
  | zero => intro n ds; simp [Nat.toDigitsCore]
  | succ fuel ih =>
    intro n ds
    simp only [Nat.toDigitsCore]
    by_cases h : n / b = 0
    · simp [h]
    · simp only [h, if_false]
      rw [ih (n / b) (Nat.digitChar (n % b) :: ds), ih (n / b) [Nat.digitChar (n % b)]]
      simp

theorem decimalVal_toDigitsCore :
    ∀ (fuel n : Nat), n < fuel → decimalVal (Nat.toDigitsCore 10 fuel n []) = n := by
  intro fuel
  induction fuel with
  | zero => intro n h; omega
  | succ fuel ih =>
    intro n h
    simp only [Nat.toDigitsCore]
    by_cases h0 : n / 10 = 0
    · have hn : n < 10 := by omega
      simp only [h0, if_true]
      simp only [decimalVal, List.foldl_cons, List.foldl_nil, decimalStep,
        Nat.mod_eq_of_lt hn, digitChar_toNat n hn]
      omega
    · simp only [h0, if_false]
      rw [toDigitsCore_append]
      have hdiv : n / 10 < fuel := by
        have h1 : n / 10 < n := Nat.div_lt_self (by omega) (by omega)
        omega
      simp only [decimalVal, List.foldl_append]
      rw [show (Nat.toDigitsCore 10 fuel (n / 10) []).foldl decimalStep 0
            = decimalVal (Nat.toDigitsCore 10 fuel (n / 10) []) from rfl, ih _ hdiv]
      simp [decimalStep, digitChar_toNat (n % 10) (Nat.mod_lt n (by omega))]
      omega

theorem natRepr_injective : ∀ (m n : Nat), Nat.repr m = Nat.repr n → m = n := by
  intro m n h
  have hdata : (Nat.toDigits 10 m) = (Nat.toDigits 10 n) := by
    have := congrArg String.data h
    simpa [Nat.repr, List.asString] using this
  have hm : decimalVal (Nat.toDigits 10 m) = m :=
    decimalVal_toDigitsCore (m + 1) m (Nat.lt_succ_self m)
  have hn : decimalVal (Nat.toDigits 10 n) = n :=
    decimalVal_toDigitsCore (n + 1) n (Nat.lt_succ_self n)
  rw [← hm, ← hn, hdata]

theorem natRepr_ne (m n : Nat) (h : m ≠ n) : Nat.repr m ≠ Nat.repr n :=
  fun he => h (natRepr_injective m n he)

/-! ### Data model

Shapes of the MCP protocol objects used by mcp_client.py.  An error
value stands for a raised Python exception.
-/

abbrev Err := String

/-- An argument declaration of a server prompt (`arg.name`). -/
structure PromptArg where
  name : String
  deriving Repr, DecidableEq

/-- A prompt definition: `p.name` and `p.arguments`. -/
structure PromptDef where
  name : String
  arguments : List PromptArg
  deriving Repr, DecidableEq

/-- The rendered result of `session.get_prompt`: the `content.text` of each
of `response.messages`.  `handle_prompt` reads `response.messages[0]`. -/
structure GetPromptResult where
  texts : List String
  deriving Repr, DecidableEq

/-- A resource descriptor: `r.name` and `r.uri`. -/
structure Resource where
  name : String
  uri : String
  deriving Repr, DecidableEq

/-- One entry of `result.contents` from `session.read_resource`; `text` is
`some` exactly when the Python object has a `text` attribute. -/
structure ContentBlock where
  text : Option String
  deriving Repr, DecidableEq

/-- The result of `session.read_resource`. -/
structure ReadResult where
  contents : List ContentBlock
  deriving Repr, DecidableEq

/-- A tool invocation request carried inside an assistant message. -/
structure ToolCall where
  name : String
  args : List (String × String)
  deriving Repr, DecidableEq

/-- Message roles in the conversation state. -/
inductive Role where
  | user
  | assistant
  | toolResult
  deriving Repr, DecidableEq

/-- A conversation message; `toolCalls` is empty except on assistant
messages that request tool invocations. -/
structure Msg where
  role : Role
  content : String
  toolCalls : List ToolCall
  deriving Repr, DecidableEq

/-- A remote side effect performed by a handler, in order of occurrence:
MCP session calls plus invocations of the compiled agent graph. -/
inductive RemoteCall where
  | listPrompts
  | getPrompt (name : String) (args : List (String × String))
  | listResources
  | readResource (uri : String)
  | agentInvoke (threadId : String) (input : String)
  deriving Repr, DecidableEq

/-- Oracle for the MCP session: each field gives the outcome of the
corresponding remote call (`Except.error` models a raised exception). -/
structure Session where
  listPromptsR : Except Err (List PromptDef)
  getPromptR : String → List (String × String) → Except Err GetPromptResult
  listResourcesR : Except Err (List Resource)
  readResourceR : String → Except Err ReadResult

/-- Oracle for the compiled agent graph: `ainvokeR threadId input` is the
message list of the state returned by `agent.ainvoke`. -/
structure Agent where
  ainvokeR : String → String → Except Err (List Msg)

/-- The fixed conversation identifier used for every agent invocation
(`thread_id: "wiki-session"`). -/
def wikiThread : String := "wiki-session"

/-! ### Command handlers -/

/-- Outcome printed by `handle_prompt`. -/
inductive PromptOutcome where
  | usage
  | notFound (name : String)
  | argCountMismatch (expectedCount : Nat) (expectedNames : List String)
  | success (text : String)
  | failed (e : Err)
  deriving Repr, DecidableEq

/-- Embedding of `handle_prompt` (mcp_client.py lines 57-90), applied to
the token list produced by `shlex.split(command.strip())`.  Returns the
printed outcome together with the ordered log of remote calls made. -/
def handlePrompt (sess : Session) (agent : Agent) (parts : List String) :
    PromptOutcome × List RemoteCall :=
  match parts with
  | _cmd :: promptName :: args =>
    (match sess.listPromptsR with
     | .error e => (.failed e, [.listPrompts])
     | .ok prompts =>
       match prompts.find? (fun p => p.name == promptName) with
       | none => (.notFound promptName, [.listPrompts])
       | some m =>
         if args.length ≠ m.arguments.length then
           (.argCountMismatch m.arguments.length (m.arguments.map (fun a => a.name)),
            [.listPrompts])
         else
           match sess.getPromptR promptName ((m.arguments.zip args).map
               (fun av => (av.1.name, av.2))) with
           | .error e =>
             (.failed e,
              [.listPrompts,
               .getPrompt promptName ((m.arguments.zip args).map (fun av => (av.1.name, av.2)))])
           | .ok resp =>
             match resp.texts with
             | [] =>
               (.failed "list index out of range",
                [.listPrompts,
                 .getPrompt promptName ((m.arguments.zip args).map (fun av => (av.1.name, av.2)))])
             | t :: _ =>
               match agent.ainvokeR wikiThread t with
               | .error e =>
                 (.failed e,
                  [.listPrompts,
                   .getPrompt promptName ((m.arguments.zip args).map (fun av => (av.1.name, av.2))),
                   .agentInvoke wikiThread t])
               | .ok msgs =>
                 match msgs.getLast? with
                 | none =>
                   (.failed "list index out of range",
                    [.listPrompts,
                     .getPrompt promptName
                       ((m.arguments.zip args).map (fun av => (av.1.name, av.2))),
                     .agentInvoke wikiThread t])
                 | some last =>
                   (.success last.content,
                    [.listPrompts,
                     .getPrompt promptName
                       ((m.arguments.zip args).map (fun av => (av.1.name, av.2))),
                     .agentInvoke wikiThread t]))
  | _ => (.usage, [])

/-- The 1-based position index built by `handle_resource`:
`resource_map = \x7bstr(i + 1): r.name for i, r in enumerate(resources)\x7d`,
as an association list starting at key `k`. -/
def indexPairsFrom (k : Nat) : List Resource → List (String × String)
  | [] => []
  | r :: rs => (Nat.repr k, r.name) :: indexPairsFrom (k + 1) rs

/-- The association list of `resource_map`, keyed from "1". -/
def resourceIndexPairs (rs : List Resource) : List (String × String) :=
  indexPairsFrom 1 rs

/-- `resource_name = resource_map.get(resource_id, resource_id)`. -/
def resolveResourceName (rs : List Resource) (tok : String) : String :=
  ((resourceIndexPairs rs).lookup tok).getD tok

/-- `match = next((r for r in resources if r.name == resource_name), None)`
applied to the resolved name. -/
def resolveResource (rs : List Resource) (tok : String) : Option Resource :=
  rs.find? (fun r => r.name == resolveResourceName rs tok)

/-- Outcome printed by `handle_resource`. -/
inductive ResourceOutcome where
  | usage
  | notFound (tok : String)
  | texts (ts : List String)
  | failed (e : Err)
  deriving Repr, DecidableEq

/-- Embedding of `handle_resource` (mcp_client.py lines 108-139), applied
to the token list produced by `shlex.split(command.strip())`. -/
def handleResource (sess : Session) (parts : List String) :
    ResourceOutcome × List RemoteCall :=
  match parts with
  | _cmd :: tok :: _rest =>
    (match sess.listResourcesR with
     | .error e => (.failed e, [.listResources])
     | .ok rs =>
       match resolveResource rs tok with
       | none => (.notFound tok, [.listResources])
       | some m =>
         match sess.readResourceR m.uri with
         | .error e => (.failed e, [.listResources, .readResource m.uri])
         | .ok res =>
           (.texts (res.contents.filterMap (fun c => c.text)),
            [.listResources, .readResource m.uri]))
  | _ => (.usage, [])

/-- Outcome printed by `list_prompts` (mcp_client.py lines 39-54).  The
function has no try/except, so a failing remote call propagates as
`Except.error`. -/
inductive PromptsListing where
  | noneFound
  | listing (ps : List PromptDef)
  deriving Repr, DecidableEq

/-- Embedding of `list_prompts`: no exception handling at all. -/
def listPromptsH (sess : Session) : Except Err PromptsListing × List RemoteCall :=
  match sess.listPromptsR with
  | .error e => (.error e, [.listPrompts])
  | .ok ps => (.ok (if ps.isEmpty then .noneFound else .listing ps), [.listPrompts])

/-- Outcome printed by `list_resources` (mcp_client.py lines 93-105). -/
inductive ResourcesListing where
  | noneFound
  | listing (rs : List Resource)
  | failed (e : Err)
  deriving Repr, DecidableEq

/-- Embedding of `list_resources`: its try/except catches the failure. -/
def listResourcesH (sess : Session) : ResourcesListing × List RemoteCall :=
  match sess.listResourcesR with
  | .error e => (.failed e, [.listResources])
  | .ok rs => (if rs.isEmpty then .noneFound else .listing rs, [.listResources])

/-- Outcome of a plain conversational turn in the main loop. -/
inductive ChatOutcome where
  | reply (text : String)
  | errorCaught (e : Err)
  deriving Repr, DecidableEq

/-- Embedding of the plain-text branch of the main loop (mcp_client.py
lines 214-221): `agent.ainvoke` under thread "wiki-session", printing
`response["messages"][-1].content`; the try/except catches failures. -/
def chatTurn (agent : Agent) (input : String) : ChatOutcome × List RemoteCall :=
  match agent.ainvokeR wikiThread input with
  | .error e => (.errorCaught e, [.agentInvoke wikiThread input])
  | .ok msgs =>
    match msgs.getLast? with
    | none => (.errorCaught "list index out of range", [.agentInvoke wikiThread input])
    | some last => (.reply last.content, [.agentInvoke wikiThread input])

/-- What one iteration of the main loop produces for the user. -/
inductive Output where
  | exitSession
  | promptsOut (o : PromptsListing)
  | promptOut (o : PromptOutcome)
  | resourcesOut (o : ResourcesListing)
  | resourceOut (o : ResourceOutcome)
  | chatOut (o : ChatOutcome)
  deriving Repr, DecidableEq

/-- The exit keywords recognised by the main loop. -/
def exitCommands : List String := ["exit", "quit", "q"]

/-- `b.startswith(a)` on character lists (first argument is the full
list, second the candidate leading segment). -/
def listStarts : List Char → List Char → Bool
  | _, [] => true
  | [], _ :: _ => false
  | a :: as, b :: bs => a == b && listStarts as bs

/-- Python `s.startswith(p)`. -/
def strStarts (s p : String) : Bool := listStarts s.data p.data

/-- Python `s.strip()`: drop whitespace from both ends. -/
def strTrim (s : String) : String :=
  ⟨((s.data.dropWhile Char.isWhitespace).reverse.dropWhile Char.isWhitespace).reverse⟩

/-- Python `s.lower()` (ASCII). -/
def strToLower (s : String) : String := ⟨s.data.map Char.toLower⟩

/-- Embedding of one iteration of the main interactive loop
(mcp_client.py lines 197-221): strip the input, check the exit keywords,
then dispatch on `startswith` in source order.  `split` stands for the
external `shlex.split`.  An `Except.error` result is an exception that
escapes the loop body and crashes the session. -/
def dispatch (sess : Session) (agent : Agent) (split : String → List String)
    (input : String) : Except Err Output × List RemoteCall :=
  let s := strTrim input
  if strToLower s ∈ exitCommands then (.ok .exitSession, [])
  else if strStarts s "/prompts" then
    let r := listPromptsH sess
    (Except.map Output.promptsOut r.1, r.2)
  else if strStarts s "/prompt" then
    let r := handlePrompt sess agent (split s)
    (.ok (.promptOut r.1), r.2)
  else if strStarts s "/resources" then
    let r := listResourcesH sess
    (.ok (.resourcesOut r.1), r.2)
  else if strStarts s "/resource" then
    let r := handleResource sess (split s)
    (.ok (.resourceOut r.1), r.2)
  else
    let r := chatTurn agent s
    (.ok (.chatOut r.1), r.2)

/-- A straight-line interactive session: the loop body applied to each
input in turn (traces containing no exit keyword). -/
def runShellTrace (sess : Session) (agent : Agent) (split : String → List String)
    (inputs : List String) : List (Except Err Output × List RemoteCall) :=
  inputs.map (dispatch sess agent split)

/-! ### Agent orchestrator (create_graph, mcp_client.py lines 142-181)

The compiled graph alternates between `chat_node` (reasoning) and
`tool_node` (execution), routed by `tools_condition` on the last message.
The language model is the oracle `model`; `add_messages` merges a node's
returned messages into the history.  Modelled from the spec:
`add_messages`, `tools_condition` and `ToolNode` live in the langgraph
library, not in this repository; per the spec, merging appends new
messages ("append-only within a turn"), `tools_condition` routes to the
tool node exactly when the last (assistant) message carries at least one
tool-invocation request, and the tool node produces one tool-result
message per request, preserving request order.
-/

/-- The three control locations of the orchestration cycle: `chat` is the
reasoning node, `tool` the execution node, `done` the END state. -/
inductive Node where
  | chat
  | tool
  | done
  deriving Repr, DecidableEq

/-- The tool-invocation requests of the last message of the history. -/
def lastToolCalls (msgs : List Msg) : List ToolCall :=
  match msgs.getLast? with
  | some m => m.toolCalls
  | none => []

/-- Modelled from the spec: `tools_condition` — route to the tool node
exactly when the last message contains at least one tool call. -/
def toolsCondition (msgs : List Msg) : Bool :=
  !(lastToolCalls msgs).isEmpty

/-- `chat_node`: call the model on the history; the returned assistant
message is merged into the history by `add_messages` (appended). -/
def chatNode (model : List Msg → Msg) (msgs : List Msg) : List Msg :=
  msgs ++ [model msgs]

/-- The tool-result message produced by executing one tool call, given
the tool-execution oracle `exec`. -/
def toolResultMsg (exec : String → List (String × String) → String) (tc : ToolCall) : Msg :=
  { role := .toolResult, content := exec tc.name tc.args, toolCalls := [] }

/-- Modelled from the spec: `ToolNode` — execute each tool call of the
last assistant message in request order and append one tool-result
message per request. -/
def toolNodeStep (exec : String → List (String × String) → String)
    (msgs : List Msg) : List Msg :=
  msgs ++ (lastToolCalls msgs).map (toolResultMsg exec)

/-- One transition of the compiled graph: from `chat`, run the model and
route via `tools_condition` to `tool` or `done`; from `tool`, run the
tool node and return unconditionally to `chat`; `done` is terminal. -/
def graphStep (model : List Msg → Msg) (exec : String → List (String × String) → String) :
    Node → List Msg → Node × List Msg
  | .chat, msgs =>
    ((if toolsCondition (chatNode model msgs) then Node.tool else Node.done),
     chatNode model msgs)
  | .tool, msgs => (.chat, toolNodeStep exec msgs)
  | .done, msgs => (.done, msgs)

/-- Fuel-bounded run of the graph from a control location. -/
def runGraph (model : List Msg → Msg) (exec : String → List (String × String) → String) :
    Nat → Node → List Msg → Node × List Msg
  | 0, n, msgs => (n, msgs)
  | fuel + 1, n, msgs =>
    if n = .done then (.done, msgs)
    else
      runGraph model exec fuel (graphStep model exec n msgs).1 (graphStep model exec n msgs).2

/-- One user turn of `agent.ainvoke`: the input is appended to the
checkpointed history as a user message and the graph starts at the
reasoning node. -/
def runTurn (model : List Msg → Msg) (exec : String → List (String × String) → String)
    (fuel : Nat) (history : List Msg) (input : String) : Node × List Msg :=
  runGraph model exec fuel .chat (history ++ [{ role := .user, content := input, toolCalls := [] }])

/-- The invariant behind claim C4: the machine sits in the execution
node only right after an assistant message carrying a tool request. -/
def execInv (n : Node) (msgs : List Msg) : Prop :=
  n = .tool → ∃ m, msgs.getLast? = some m ∧ m.toolCalls ≠ []

/-! ### Helper lemmas -/

theorem getLast?_append_single {α : Type} (l : List α) (a : α) :
    (l ++ [a]).getLast? = some a := by
  induction l with
  | nil => rfl
  | cons b t ih =>
    rw [List.cons_append, List.getLast?_cons, ih]
    rfl

theorem lastToolCalls_append (msgs : List Msg) (m : Msg) :
    lastToolCalls (msgs ++ [m]) = m.toolCalls := by
  simp [lastToolCalls, getLast?_append_single]

/-- Looking up the decimal key `k + i` in the index map built from
offset `k` returns the name of the resource at offset `i`. -/
theorem lookup_indexPairsFrom :
    ∀ (rs : List Resource) (k i : Nat) (h : i < rs.length),
      (indexPairsFrom k rs).lookup (Nat.repr (k + i)) = some ((rs.get ⟨i, h⟩).name) := by
  intro rs
  induction rs with
  | nil => intro k i h; simp at h
  | cons r t ih =>
    intro k i h
    match i with
    | 0 =>
      simp [indexPairsFrom, List.lookup]
    | j + 1 =>
      have hne : (Nat.repr (k + (j + 1)) == Nat.repr k) = false := by
        simp only [beq_eq_false_iff_ne, ne_eq]
        exact natRepr_ne (k + (j + 1)) k (by omega)
      have hj : j < t.length := by simpa using Nat.lt_of_succ_lt_succ h
      have := ih (k + 1) j hj
      simp only [indexPairsFrom, List.lookup, hne]
      rw [show k + (j + 1) = k + 1 + j by omega]
      exact this

/-- With "1"-based keys: position `i + 1` maps to the name at index `i`. -/
theorem lookup_resourceIndexPairs (rs : List Resource) (i : Nat) (h : i < rs.length) :
    (resourceIndexPairs rs).lookup (Nat.repr (i + 1)) = some ((rs.get ⟨i, h⟩).name) := by
  have := lookup_indexPairsFrom rs 1 i h
  rwa [Nat.add_comm 1 i] at this

/-- When resource names are pairwise distinct, searching for the name at
index `i` finds exactly the resource at index `i`. -/
theorem find?_name_get_of_nodup :
    ∀ (rs : List Resource), (rs.map (fun r => r.name)).Nodup →
      ∀ (i : Nat) (h : i < rs.length),
        rs.find? (fun r => r.name == (rs.get ⟨i, h⟩).name) = some (rs.get ⟨i, h⟩) := by
  intro rs
  induction rs with
  | nil => intro _ i h; simp at h
  | cons r t ih =>
    intro hnd i h
    match i with
    | 0 =>
      simp [List.find?]
    | j + 1 =>
      have hnd2 : (r.name :: t.map (fun x => x.name)).Nodup := by simpa using hnd
      obtain ⟨hhead, htail⟩ := List.nodup_cons.mp hnd2
      have hj : j < t.length := by simpa using Nat.lt_of_succ_lt_succ h
      have hmem : (t.get ⟨j, hj⟩).name ∈ t.map (fun x => x.name) :=
        List.mem_map_of_mem _ (t.get_mem j hj)
      have hget : (r :: t).get ⟨j + 1, h⟩ = t.get ⟨j, hj⟩ := rfl
      rw [hget, List.find?_cons_of_neg]
      · exact ih htail j hj
      · intro hb
        rw [eq_of_beq hb] at hhead
        exact hhead hmem

/-! ### Concrete instances used by witnesses and counterexamples -/

/-- One server prompt named `summarize` with a single argument `topic`. -/
def demoPrompts : List PromptDef := [⟨"summarize", [⟨"topic"⟩]⟩]

/-- A listing of three resources.  The first resource is named "3",
which is also a valid position string for the third resource. -/
def demoResources : List Resource := [⟨"3", "u1"⟩, ⟨"a", "u2"⟩, ⟨"b", "u3"⟩]

/-- A healthy session oracle serving the demo prompts and resources. -/
def demoSession : Session where
  listPromptsR := .ok demoPrompts
  getPromptR := fun _ _ => .ok ⟨["please summarize"]⟩
  listResourcesR := .ok demoResources
  readResourceR := fun u => .ok ⟨[⟨some ("content of " ++ u)⟩]⟩

/-- A session oracle whose every remote call raises. -/
def failSession : Session where
  listPromptsR := .error "boom"
  getPromptR := fun _ _ => .error "boom"
  listResourcesR := .error "boom"
  readResourceR := fun _ => .error "boom"

/-- An agent oracle that answers with a single assistant message. -/
def demoAgent : Agent where
  ainvokeR := fun _ inp => .ok [{ role := .assistant, content := "echo " ++ inp, toolCalls := [] }]

/-- Whitespace tokenizer standing in for `shlex.split` in witnesses. -/
def wordsAux : List Char → List Char → List String
  | [], acc => if acc.isEmpty then [] else [⟨acc.reverse⟩]
  | c :: cs, acc =>
    if c == ' ' then
      if acc.isEmpty then wordsAux cs [] else ⟨acc.reverse⟩ :: wordsAux cs []
    else wordsAux cs (c :: acc)

/-- Concrete `split` oracle used by witnesses. -/
def demoSplit (s : String) : List String := wordsAux s.data []

/-- A listing with duplicate names: two resources named "a", and a third
resource whose name "2" collides with the position of the second. -/
def dupResources : List Resource := [⟨"a", "u1"⟩, ⟨"a", "u2"⟩, ⟨"2", "u3"⟩]

/-- A model oracle that always answers without requesting tools. -/
def demoModel (_msgs : List Msg) : Msg :=
  { role := .assistant, content := "hello", toolCalls := [] }

/-- A tool-execution oracle with a fixed result. -/
def demoExec (_name : String) (_args : List (String × String)) : String := "tool output"

/-! ### Claims -/

/-- Claim C1: for every prompt invocation command whose supplied argument
count differs from the declared parameter count of the matched prompt,
`handle_prompt` makes no remote get-prompt call, reports the expected
parameter names, and returns without invoking the orchestrator. -/
theorem claim_C1 (sess : Session) (agent : Agent) (cmd promptName : String)
    (args : List String) (prompts : List PromptDef) (m : PromptDef)
    (hps : sess.listPromptsR = .ok prompts)
    (hfind : prompts.find? (fun p => p.name == promptName) = some m)
    (hcount : args.length ≠ m.arguments.length) :
    handlePrompt sess agent (cmd :: promptName :: args) =
      (.argCountMismatch m.arguments.length (m.arguments.map (fun a => a.name)),
       [.listPrompts])
    ∧ (∀ n a, RemoteCall.getPrompt n a ∉
        (handlePrompt sess agent (cmd :: promptName :: args)).2)
    ∧ (∀ t i, RemoteCall.agentInvoke t i ∉
        (handlePrompt sess agent (cmd :: promptName :: args)).2) := by
  have hmain : handlePrompt sess agent (cmd :: promptName :: args) =
      (.argCountMismatch m.arguments.length (m.arguments.map (fun a => a.name)),
       [.listPrompts]) := by
    simp [handlePrompt, hps, hfind, hcount]
  refine ⟨hmain, ?_, ?_⟩ <;> intro x y <;> simp [hmain]

/-- Witness for C1: `/prompt summarize "Ada" "extra"` against the demo
prompt declaring the single parameter `topic`. -/
theorem claim_C1_witness :
    demoSession.listPromptsR = .ok demoPrompts
    ∧ demoPrompts.find? (fun p => p.name == "summarize") = some ⟨"summarize", [⟨"topic"⟩]⟩
    ∧ (["Ada", "extra"] : List String).length ≠ ([⟨"topic"⟩] : List PromptArg).length
    ∧ handlePrompt demoSession demoAgent ["/prompt", "summarize", "Ada", "extra"] =
        (.argCountMismatch 1 ["topic"], [.listPrompts]) :=
  ⟨rfl, by decide, by decide, (claim_C1 demoSession demoAgent "/prompt" "summarize"
    ["Ada", "extra"] demoPrompts ⟨"summarize", [⟨"topic"⟩]⟩ rfl (by decide) (by decide)).1⟩

/-- Claim C2 counterexample: in the demo listing the token "1" is the
valid position of the resource named "3", yet resolving "1" and
resolving the name "3" yield different resources — the name "3" is
itself reinterpreted as a position by `resource_map.get`.  Hence
position lookup is not always equivalent to supplying the name at that
position. -/
theorem claim_C2_counterexample :
    Nat.repr 1 = "1"
    ∧ demoResources.length = 3
    ∧ (demoResources.get ⟨0, by decide⟩).name = "3"
    ∧ resolveResource demoResources "1" = some ⟨"3", "u1"⟩
    ∧ resolveResource demoResources "3" = some ⟨"b", "u3"⟩
    ∧ handleResource demoSession ["/resource", "1"] ≠
        handleResource demoSession ["/resource", "3"] := by
  refine ⟨rfl, rfl, rfl, by decide, by decide, ?_⟩
  decide

/-- Two identifier tokens that resolve to the same resource make
`handle_resource` behave identically. -/
theorem handleResource_token_congr (sess : Session) (cmd : String) (rest : List String)
    (rs : List Resource) (t1 t2 : String) (r : Resource)
    (hls : sess.listResourcesR = .ok rs)
    (h1 : resolveResource rs t1 = some r)
    (h2 : resolveResource rs t2 = some r) :
    handleResource sess (cmd :: t1 :: rest) = handleResource sess (cmd :: t2 :: rest) := by
  simp [handleResource, hls, h1, h2]

/-- Claim C2 (amended): for every resource identifier token that is a
valid 1-based position in the current listing, `handle_resource`
resolves it to exactly the same resource (and content) as supplying the
name of the resource at that position, provided that name is not itself
a key of the positional index (a decimal numeral of a valid position). -/
theorem claim_C2 (sess : Session) (cmd : String) (rest : List String)
    (rs : List Resource) (i : Nat) (h : i < rs.length)
    (hls : sess.listResourcesR = .ok rs)
    (hname : (resourceIndexPairs rs).lookup ((rs.get ⟨i, h⟩).name) = none) :
    resolveResource rs (Nat.repr (i + 1)) = resolveResource rs ((rs.get ⟨i, h⟩).name)
    ∧ handleResource sess (cmd :: Nat.repr (i + 1) :: rest) =
        handleResource sess (cmd :: (rs.get ⟨i, h⟩).name :: rest) := by
  have h1 : resolveResourceName rs (Nat.repr (i + 1)) = (rs.get ⟨i, h⟩).name := by
    unfold resolveResourceName
    rw [lookup_resourceIndexPairs rs i h]
    rfl
  have h2 : resolveResourceName rs ((rs.get ⟨i, h⟩).name) = (rs.get ⟨i, h⟩).name := by
    unfold resolveResourceName
    rw [hname]
    rfl
  have h3 : resolveResource rs (Nat.repr (i + 1)) = resolveResource rs ((rs.get ⟨i, h⟩).name) := by
    unfold resolveResource
    rw [h1, h2]
  have hsome : ∃ r, rs.find? (fun x => x.name == (rs.get ⟨i, h⟩).name) = some r := by
    cases hfind : rs.find? (fun x => x.name == (rs.get ⟨i, h⟩).name) with
    | some r => exact ⟨r, rfl⟩
    | none =>
      have := List.find?_eq_none.mp hfind (rs.get ⟨i, h⟩) (rs.get_mem i h)
      simp at this
  obtain ⟨r, hr⟩ := hsome
  have hr1 : resolveResource rs ((rs.get ⟨i, h⟩).name) = some r := by
    unfold resolveResource
    rw [h2]
    exact hr
  have hr2 : resolveResource rs (Nat.repr (i + 1)) = some r := by
    rw [h3]
    exact hr1
  exact ⟨h3, handleResource_token_congr sess cmd rest rs _ _ r hls hr2 hr1⟩

/-- Witness for amended C2: in the demo listing, position 2 holds the
resource named "a", whose name is not a positional key, and resolving
"2" agrees with resolving "a". -/
theorem claim_C2_witness :
    (resourceIndexPairs demoResources).lookup ((demoResources.get ⟨1, by decide⟩).name) = none
    ∧ handleResource demoSession ["/resource", Nat.repr 2] =
        handleResource demoSession ["/resource", "a"] :=
  ⟨by decide,
   (claim_C2 demoSession "/resource" [] demoResources 1 (by decide) rfl (by decide)).2⟩

/-- Claim C10 counterexample: in `dupResources` the token "2" is a valid
position (the second resource, named "a") and is also the exact name of
the third resource.  The code resolves it positionally, but because the
name "a" is duplicated, `handle_resource` returns the FIRST resource
named "a" — not the resource at index 2 as the claim states. -/
theorem claim_C10_counterexample :
    Nat.repr 2 = "2"
    ∧ dupResources.length = 3
    ∧ (dupResources.get ⟨2, by decide⟩).name = "2"
    ∧ dupResources.get ⟨2, by decide⟩ ≠ dupResources.get ⟨1, by decide⟩
    ∧ resolveResource dupResources "2" = some ⟨"a", "u1"⟩
    ∧ resolveResource dupResources "2" ≠ some (dupResources.get ⟨1, by decide⟩) := by
  refine ⟨rfl, rfl, rfl, by decide, by decide, by decide⟩

/-- Claim C10 (amended): positional lookup takes precedence over literal
names — provided the names in the listing are pairwise distinct, a token
that is both a valid 1-based position and the exact name of some other
resource resolves to the resource at that index, not to the resource
bearing the token as its name. -/
theorem claim_C10 (rs : List Resource) (i : Nat) (h : i < rs.length) (r2 : Resource)
    (hnd : (rs.map (fun r => r.name)).Nodup)
    (_hmem : r2 ∈ rs) (_hname2 : r2.name = Nat.repr (i + 1))
    (hdiff : r2 ≠ rs.get ⟨i, h⟩) :
    resolveResource rs (Nat.repr (i + 1)) = some (rs.get ⟨i, h⟩)
    ∧ rs.get ⟨i, h⟩ ≠ r2 := by
  have h1 : resolveResourceName rs (Nat.repr (i + 1)) = (rs.get ⟨i, h⟩).name := by
    unfold resolveResourceName
    rw [lookup_resourceIndexPairs rs i h]
    rfl
  have h2 : resolveResource rs (Nat.repr (i + 1)) = some (rs.get ⟨i, h⟩) := by
    unfold resolveResource
    rw [h1]
    exact find?_name_get_of_nodup rs hnd i h
  exact ⟨h2, fun he => hdiff he.symm⟩

/-- Witness for amended C10: in the demo listing (distinct names) the
token "3" is both the name of the first resource and the position of the
third; it resolves to the third resource. -/
theorem claim_C10_witness :
    (demoResources.map (fun r => r.name)).Nodup
    ∧ (⟨"3", "u1"⟩ : Resource) ∈ demoResources
    ∧ (⟨"3", "u1"⟩ : Resource).name = Nat.repr 3
    ∧ resolveResource demoResources (Nat.repr 3) = some (demoResources.get ⟨2, by decide⟩) :=
  ⟨by decide, by decide, rfl,
   (claim_C10 demoResources 2 (by decide) ⟨"3", "u1"⟩ (by decide) (by decide) rfl
     (by decide)).1⟩

/-- Claim C8 counterexample: the very first command of a session — so no
resource listing has been performed before it — is `/resource 1`, and it
succeeds, retrieving content.  `handle_resource` performs its own
listing (line 118), so resolution does not depend on a prior listing. -/
theorem claim_C8_counterexample :
    runShellTrace demoSession demoAgent demoSplit ["/resource 1"] =
      [(.ok (.resourceOut (.texts ["content of u1"])),
        [.listResources, .readResource "u1"])]
    ∧ ResourceOutcome.texts ["content of u1"] ≠ ResourceOutcome.notFound "1" := by
  exact ⟨rfl, by decide⟩

/-- Claim C8 (amended): `handle_resource` fetches a fresh resource
listing on every invocation; resolution never depends on a prior
`/resources` command.  When the identifier resolves to no resource in
that fresh listing, "not found" is the only outcome and no resource
content is retrieved. -/
theorem claim_C8 (sess : Session) (cmd tok : String) (rest : List String)
    (rs : List Resource)
    (hls : sess.listResourcesR = .ok rs)
    (hnone : resolveResource rs tok = none) :
    handleResource sess (cmd :: tok :: rest) = (.notFound tok, [.listResources])
    ∧ (∀ u, RemoteCall.readResource u ∉ (handleResource sess (cmd :: tok :: rest)).2) := by
  have hmain : handleResource sess (cmd :: tok :: rest) = (.notFound tok, [.listResources]) := by
    simp [handleResource, hls, hnone]
  refine ⟨hmain, ?_⟩
  intro u
  simp [hmain]

/-- Witness for amended C8: the token "zzz" resolves to nothing in the
demo listing and yields exactly a not-found outcome. -/
theorem claim_C8_witness :
    demoSession.listResourcesR = .ok demoResources
    ∧ resolveResource demoResources "zzz" = none
    ∧ handleResource demoSession ["/resource", "zzz"] = (.notFound "zzz", [.listResources]) :=
  ⟨rfl, by decide,
   (claim_C8 demoSession "/resource" "zzz" [] demoResources rfl (by decide)).1⟩

/-- Claim C3 counterexample: the `/prompts` command has no exception
handling — neither inside `list_prompts` nor around its call site in
`main` — so a failing remote `list_prompts` call escapes the loop body,
refuting the claim that every in-loop remote failure is caught. -/
theorem claim_C3_counterexample :
    ¬ (∀ (sess : Session) (agent : Agent) (sp : String → List String)
        (input : String) (e : Err),
          (dispatch sess agent sp input).1 ≠ Except.error e) := by
  intro hall
  exact hall failSession demoAgent demoSplit "/prompts" "boom" rfl

/-- Claim C3 (amended): for every in-loop command other than the
`/prompts` listing, a remote failure is caught at the call site and
reported as an outcome; the loop body returns normally.  Only the
`/prompts` listing can let a connection failure escape. -/
theorem claim_C3 (sess : Session) (agent : Agent) (sp : String → List String)
    (input : String)
    (h : strStarts (strTrim input) "/prompts" = false) :
    ∃ o, (dispatch sess agent sp input).1 = Except.ok o := by
  unfold dispatch
  simp only [h, Bool.false_eq_true, if_false]
  split
  · exact ⟨_, rfl⟩
  · split
    · exact ⟨_, rfl⟩
    · split
      · exact ⟨_, rfl⟩
      · split
        · exact ⟨_, rfl⟩
        · exact ⟨_, rfl⟩

/-- Witness for amended C3: a plain conversational input returns a
normal outcome. -/
theorem claim_C3_witness :
    strStarts (strTrim "hi") "/prompts" = false
    ∧ ∃ o, (dispatch demoSession demoAgent demoSplit "hi").1 = Except.ok o :=
  ⟨rfl, claim_C3 demoSession demoAgent demoSplit "hi" rfl⟩

/-- `runGraph` started (or arrived) at the END node never moves. -/
theorem runGraph_done (model : List Msg → Msg) (exec : String → List (String × String) → String)
    (fuel : Nat) (msgs : List Msg) :
    runGraph model exec fuel .done msgs = (.done, msgs) := by
  cases fuel with
  | zero => rfl
  | succ fuel => simp [runGraph]

/-- Claim C4: after every reasoning step the next node is the execution
node exactly when the produced assistant message contains at least one
tool-invocation request and the terminal node otherwise; every execution
step returns unconditionally to the reasoning node with the updated
history; and along any run the machine is in the execution node only
immediately after an assistant message carrying a tool request. -/
theorem claim_C4 (model : List Msg → Msg) (exec : String → List (String × String) → String) :
    (∀ msgs, (graphStep model exec .chat msgs).1 =
        (if (model msgs).toolCalls.isEmpty then Node.done else Node.tool)
      ∧ (graphStep model exec .chat msgs).2 = chatNode model msgs)
    ∧ (∀ msgs, graphStep model exec .tool msgs = (.chat, toolNodeStep exec msgs))
    ∧ (∀ n msgs, execInv n msgs →
        execInv (graphStep model exec n msgs).1 (graphStep model exec n msgs).2)
    ∧ (∀ fuel n msgs, execInv n msgs →
        execInv (runGraph model exec fuel n msgs).1 (runGraph model exec fuel n msgs).2) := by
  have hchat : ∀ msgs, (graphStep model exec .chat msgs).1 =
      (if (model msgs).toolCalls.isEmpty then Node.done else Node.tool)
      ∧ (graphStep model exec .chat msgs).2 = chatNode model msgs := by
    intro msgs
    cases hbe : (model msgs).toolCalls.isEmpty <;>
      simp [graphStep, toolsCondition, chatNode, lastToolCalls_append, hbe]
  have hstep : ∀ n msgs, execInv n msgs →
      execInv (graphStep model exec n msgs).1 (graphStep model exec n msgs).2 := by
    intro n msgs hinv
    cases n with
    | chat =>
      intro htool
      cases hbe : (model msgs).toolCalls.isEmpty with
      | true =>
        rw [(hchat msgs).1, hbe] at htool
        simp at htool
      | false =>
        refine ⟨model msgs, ?_, ?_⟩
        · rw [(hchat msgs).2]
          exact getLast?_append_single msgs (model msgs)
        · intro hnil
          rw [hnil] at hbe
          simp at hbe
    | tool => intro htool; simp [graphStep] at htool
    | done => intro htool; simp [graphStep] at htool
  refine ⟨hchat, fun msgs => rfl, hstep, ?_⟩
  intro fuel
  induction fuel with
  | zero => intro n msgs hinv; exact hinv
  | succ fuel ih =>
    intro n msgs hinv
    by_cases hd : n = Node.done
    · subst hd
      rw [runGraph_done]
      intro htool
      simp at htool
    · have hrw : runGraph model exec (fuel + 1) n msgs =
          runGraph model exec fuel (graphStep model exec n msgs).1
            (graphStep model exec n msgs).2 := by
        simp [runGraph, hd]
      rw [hrw]
      exact ih _ _ (hstep n msgs hinv)

/-- Witness for C4: the invariant-preservation conjuncts discharged on a
concrete state of the demo machine. -/
theorem claim_C4_witness :
    execInv Node.chat []
    ∧ execInv (runGraph demoModel demoExec 5 Node.chat []).1
        (runGraph demoModel demoExec 5 Node.chat []).2 := by
  have hinv : execInv Node.chat [] := by
    intro htool
    simp at htool
  exact ⟨hinv, (claim_C4 demoModel demoExec).2.2.2 5 Node.chat [] hinv⟩

/-- Claim C5: for every assistant message carrying N tool-invocation
requests, the execution node appends exactly N tool-result messages, the
i-th of which is the result of the i-th request (the appended block is
the in-order map of the requests). -/
theorem claim_C5 (exec : String → List (String × String) → String)
    (msgs : List Msg) (m : Msg) :
    toolNodeStep exec (msgs ++ [m]) =
      (msgs ++ [m]) ++ m.toolCalls.map (toolResultMsg exec)
    ∧ (toolNodeStep exec (msgs ++ [m])).length =
        (msgs ++ [m]).length + m.toolCalls.length := by
  have h1 : toolNodeStep exec (msgs ++ [m]) =
      (msgs ++ [m]) ++ m.toolCalls.map (toolResultMsg exec) := by
    simp [toolNodeStep, lastToolCalls_append]
  refine ⟨h1, ?_⟩
  rw [h1]
  simp
  omega

/-- Claim C6: a conversational turn in which the model requests no tools
ends at the terminal node having appended exactly one user and one
assistant message: the checkpointed message count grows by exactly 2. -/
theorem claim_C6 (model : List Msg → Msg) (exec : String → List (String × String) → String)
    (fuel : Nat) (history : List Msg) (input : String)
    (hnc : (model (history ++ [{ role := .user, content := input, toolCalls := [] }])).toolCalls
      = []) :
    runTurn model exec (fuel + 1) history input =
      (.done,
       (history ++ [{ role := .user, content := input, toolCalls := [] }])
         ++ [model (history ++ [{ role := .user, content := input, toolCalls := [] }])])
    ∧ (runTurn model exec (fuel + 1) history input).2.length = history.length + 2 := by
  have hmain : runTurn model exec (fuel + 1) history input =
      (.done,
       (history ++ [{ role := .user, content := input, toolCalls := [] }])
         ++ [model (history ++ [{ role := .user, content := input, toolCalls := [] }])]) := by
    unfold runTurn
    rw [show runGraph model exec (fuel + 1) Node.chat
          (history ++ [{ role := .user, content := input, toolCalls := [] }]) =
        runGraph model exec fuel
          (graphStep model exec Node.chat
            (history ++ [{ role := .user, content := input, toolCalls := [] }])).1
          (graphStep model exec Node.chat
            (history ++ [{ role := .user, content := input, toolCalls := [] }])).2
      by simp [runGraph]]
    have hlast := lastToolCalls_append
      (history ++ [{ role := .user, content := input, toolCalls := [] }])
      (model (history ++ [{ role := .user, content := input, toolCalls := [] }]))
    simp only [List.append_assoc, List.cons_append, List.nil_append] at hlast
    have hcond : (graphStep model exec Node.chat
        (history ++ [{ role := .user, content := input, toolCalls := [] }])).1 = Node.done := by
      simp [graphStep, toolsCondition, chatNode, hlast, hnc]
    rw [show (graphStep model exec Node.chat
        (history ++ [{ role := .user, content := input, toolCalls := [] }])).2 =
        (history ++ [{ role := .user, content := input, toolCalls := [] }])
          ++ [model (history ++ [{ role := .user, content := input, toolCalls := [] }])]
      from rfl, hcond, runGraph_done]
  refine ⟨hmain, ?_⟩
  rw [hmain]
  simp

/-- Witness for C6 on the demo model, which never requests tools. -/
theorem claim_C6_witness :
    (demoModel ([] ++ [{ role := .user, content := "hi", toolCalls := [] }])).toolCalls = []
    ∧ (runTurn demoModel demoExec 1 [] "hi").2.length = 0 + 2 :=
  ⟨rfl, (claim_C6 demoModel demoExec 0 [] "hi" rfl).2⟩

/-- Claim C7: the conversation state is append-only — every reasoning
and execution step, and any bounded run of the machine, extends the
history on the right, so every message present before is still present,
unmodified and in its original relative order. -/
theorem claim_C7 (model : List Msg → Msg) (exec : String → List (String × String) → String) :
    (∀ n msgs, ∃ t, (graphStep model exec n msgs).2 = msgs ++ t)
    ∧ (∀ fuel n msgs, ∃ t, (runGraph model exec fuel n msgs).2 = msgs ++ t) := by
  have hstep : ∀ n msgs, ∃ t, (graphStep model exec n msgs).2 = msgs ++ t := by
    intro n msgs
    cases n with
    | chat => exact ⟨[model msgs], rfl⟩
    | tool => exact ⟨(lastToolCalls msgs).map (toolResultMsg exec), rfl⟩
    | done => exact ⟨[], by simp [graphStep]⟩
  refine ⟨hstep, ?_⟩
  intro fuel
  induction fuel with
  | zero => intro n msgs; exact ⟨[], by simp [runGraph]⟩
  | succ fuel ih =>
    intro n msgs
    by_cases hd : n = Node.done
    · subst hd
      refine ⟨[], ?_⟩
      rw [runGraph_done]
      simp
    · obtain ⟨t1, ht1⟩ := hstep n msgs
      obtain ⟨t2, ht2⟩ := ih (graphStep model exec n msgs).1 (graphStep model exec n msgs).2
      refine ⟨t1 ++ t2, ?_⟩
      have hrw : runGraph model exec (fuel + 1) n msgs =
          runGraph model exec fuel (graphStep model exec n msgs).1
            (graphStep model exec n msgs).2 := by
        simp [runGraph, hd]
      rw [hrw, ht2, ht1, List.append_assoc]

/-- The `/prompts` listing never invokes the orchestrator. -/
theorem listPromptsH_no_agent (sess : Session) (t i : String) :
    RemoteCall.agentInvoke t i ∉ (listPromptsH sess).2 := by
  intro hmem
  unfold listPromptsH at hmem
  split at hmem <;> simp_all

/-- The `/resources` listing never invokes the orchestrator. -/
theorem listResourcesH_no_agent (sess : Session) (t i : String) :
    RemoteCall.agentInvoke t i ∉ (listResourcesH sess).2 := by
  intro hmem
  unfold listResourcesH at hmem
  split at hmem <;> simp_all

/-- `handle_resource` never invokes the orchestrator. -/
theorem handleResource_no_agent (sess : Session) (parts : List String) (t i : String) :
    RemoteCall.agentInvoke t i ∉ (handleResource sess parts).2 := by
  intro hmem
  unfold handleResource at hmem
  repeat' split at hmem
  all_goals simp_all

/-- Every orchestrator invocation made by `handle_prompt` uses the fixed
conversation identifier. -/
theorem handlePrompt_thread (sess : Session) (agent : Agent) (parts : List String)
    (t i : String)
    (hmem : RemoteCall.agentInvoke t i ∈ (handlePrompt sess agent parts).2) :
    t = wikiThread := by
  unfold handlePrompt at hmem
  repeat' split at hmem
  all_goals simp_all

/-- Every orchestrator invocation made by a plain conversational turn
uses the fixed conversation identifier. -/
theorem chatTurn_thread (agent : Agent) (input t i : String)
    (hmem : RemoteCall.agentInvoke t i ∈ (chatTurn agent input).2) :
    t = wikiThread := by
  unfold chatTurn at hmem
  repeat' split at hmem
  all_goals simp_all

/-- Claim C9: every invocation of the orchestrator performed by the
interactive loop — plain conversational turns as well as prompt
invocations — is checkpointed under the one fixed conversation
identifier "wiki-session". -/
theorem claim_C9 (sess : Session) (agent : Agent) (sp : String → List String)
    (input t i : String)
    (hmem : RemoteCall.agentInvoke t i ∈ (dispatch sess agent sp input).2) :
    t = wikiThread ∧ wikiThread = "wiki-session" := by
  refine ⟨?_, rfl⟩
  simp only [dispatch] at hmem
  split at hmem
  · simp at hmem
  · split at hmem
    · exact absurd hmem (listPromptsH_no_agent sess t i)
    · split at hmem
      · exact handlePrompt_thread sess agent _ t i hmem
      · split at hmem
        · exact absurd hmem (listResourcesH_no_agent sess t i)
        · split at hmem
          · exact absurd hmem (handleResource_no_agent sess _ t i)
          · exact chatTurn_thread agent _ t i hmem

/-- Witness for C9: a concrete conversational turn whose log contains an
orchestrator invocation, necessarily under "wiki-session". -/
theorem claim_C9_witness :
    RemoteCall.agentInvoke "wiki-session" "hi" ∈ (dispatch demoSession demoAgent demoSplit "hi").2
    ∧ "wiki-session" = "wiki-session" := by
  have hmem : RemoteCall.agentInvoke "wiki-session" "hi" ∈
      (dispatch demoSession demoAgent demoSplit "hi").2 := by decide
  exact ⟨hmem, (claim_C9 demoSession demoAgent demoSplit "hi" "wiki-session" "hi" hmem).2⟩

end McpClient
